import Mathlib

/-!
Verification of the greenhouse telemetry core: the diurnal signal model of
`CPC_data_generator.py` and the trend-analysis functions of
`CPC_Visualization.py`, embedded shallowly over exact rationals.

Real-number quantities of the source (float arithmetic, `np.sin` values,
Gaussian noise draws) are modelled as arbitrary rationals: the sine table and
the noise streams are explicit function parameters, so every theorem below
quantifies over all of their realisations.
-/

namespace CPC

/-- Round-half-to-even on rationals, modelling Python `round(x)` applied to
an exact value: nearest integer, ties to the even neighbour. -/
def roundHalfEven (q : ℚ) : ℤ :=
  if q - ⌊q⌋ < 1/2 then ⌊q⌋
  else if 1/2 < q - ⌊q⌋ then ⌊q⌋ + 1
  else if ⌊q⌋ % 2 = 0 then ⌊q⌋ else ⌊q⌋ + 1

/-- Python `round(x, 1)`: round to one decimal place, ties to even. -/
def roundTo1 (q : ℚ) : ℚ := (roundHalfEven (10 * q) : ℚ) / 10

/-- Python `int(x)`: truncation toward zero. -/
def intTrunc (q : ℚ) : ℤ := if 0 ≤ q then ⌊q⌋ else ⌈q⌉

/-- The sensor payload of one generated document (the `data` field of the
record built by `generate_data`); the ISO timestamp string and the derived
`formatted_data` line are presentation-only renderings of these same values
and are not modelled. `timestampMin` is the reading's offset in minutes from
the fixed start instant 2025-01-21 00:00:00. -/
structure Doc where
  timestampMin : ℕ
  temperature : ℚ
  humidity : ℤ
  soil_moisture : ℤ
  light_level : ℤ
  co2_level : ℤ
deriving DecidableEq, Inhabited

/-- The five independent `np.random.normal` draws of each loop iteration,
as abstract streams indexed by the loop counter. -/
structure Noise where
  temp : ℕ → ℚ
  humidity : ℕ → ℚ
  soil : ℕ → ℚ
  light : ℕ → ℚ
  co2 : ℕ → ℚ

/-- The zero noise realisation, used to instantiate theorems. -/
def noNoise : Noise := ⟨fun _ => 0, fun _ => 0, fun _ => 0, fun _ => 0, fun _ => 0⟩

/-- The zero sine table, used to instantiate theorems. -/
def zeroSin : ℕ → ℚ := fun _ => 0

/-- `current_time.hour` for reading `i` of a run sampled every `interval`
minutes from midnight: elapsed minutes divided by 60, modulo 24. -/
def hourAt (interval i : ℕ) : ℕ := interval * i / 60 % 24

/-- Temperature cycle `4 * np.sin((hour - 6) * np.pi / 12)`; `sinT hour`
stands for the (transcendental) value `sin((hour - 6) * π / 12)`. -/
def temp_cycle (sinT : ℕ → ℚ) (hour : ℕ) : ℚ := 4 * sinT hour

/-- Light cycle: `50000 * np.sin((hour - 6) * np.pi / 12)` between hours 6
and 18 inclusive, else 0. -/
def light_cycle (sinT : ℕ → ℚ) (hour : ℕ) : ℚ :=
  if 6 ≤ hour ∧ hour ≤ 18 then 50000 * sinT hour else 0

/-- CO2 cycle `-200 * np.sin((hour - 6) * np.pi / 12)`. -/
def co2_cycle (sinT : ℕ → ℚ) (hour : ℕ) : ℚ := -200 * sinT hour

/-- Body of one iteration of the `generate_data` loop: cycles evaluated at
the clock hour, noise added, bounds clamped, then rounded or truncated. -/
def mkDoc (sinT : ℕ → ℚ) (ν : Noise) (interval i : ℕ) : Doc :=
  let hour := hourAt interval i
  { timestampMin := interval * i
    temperature := roundTo1 (max (min (25 + temp_cycle sinT hour + ν.temp i) 35) 15)
    humidity := intTrunc (min (max (75 + ν.humidity i) 60) 90)
    soil_moisture := intTrunc (min (max (65 + ν.soil i) 50) 80)
    light_level := max (intTrunc (0 + light_cycle sinT hour + ν.light i)) 0
    co2_level := max (intTrunc (800 + co2_cycle sinT hour + ν.co2 i)) 400 }

/-- The `generate_data` loop with the sample count `n` and the sampling
interval in minutes as parameters; the source fixes them to 48 and 30
(spec §4.2 and §6 treat them as configuration supplied by the caller). -/
def generateDataGen (n interval : ℕ) (sinT : ℕ → ℚ) (ν : Noise) : List Doc :=
  (List.range n).map (mkDoc sinT ν interval)

/-- `generate_data` exactly as in the source: 48 samples, 30-minute
spacing. -/
def generate_data (sinT : ℕ → ℚ) (ν : Noise) : List Doc :=
  generateDataGen 48 30 sinT ν

/-!
Embedding of `CPC_Visualization.py`. The numpy and scipy calls it delegates
to are embedded from their documented semantics: `np.convolve(a, v, 'valid')`
slides the shorter operand (reversed, as convolution demands) across the
longer one and keeps only the positions of full overlap, and
`scipy.stats.linregress` computes slope and Pearson r from the `bias=1`
covariance entries after its two degenerate-input guards.
-/

/-- Valid-mode discrete convolution, as `np.convolve(a, v, mode='valid')`:
`max(M,N) - min(M,N) + 1` outputs, each the dot product of the reversed
shorter sequence with a fully-overlapping slice of the longer one. -/
def convolveValid (a v : List ℚ) : List ℚ :=
  if v.length ≤ a.length then
    (List.range (a.length - v.length + 1)).map (fun i =>
      ∑ j ∈ Finset.range v.length, a.getD (i + j) 0 * v.getD (v.length - 1 - j) 0)
  else
    (List.range (v.length - a.length + 1)).map (fun i =>
      ∑ j ∈ Finset.range a.length, v.getD (i + j) 0 * a.getD (a.length - 1 - j) 0)

/-- `calculate_moving_average(data, window)`: valid-mode convolution of the
data with the constant kernel `np.ones(window)/window`. numpy raises a
`ValueError` when either convolution operand is empty (for `window = 0` the
kernel `np.ones(0)/0` is the empty array), and succeeds otherwise. -/
def calculate_moving_average (data : List ℚ) (window : ℕ) : Except String (List ℚ) :=
  if window = 0 ∨ data = [] then .error "ValueError: v cannot be empty"
  else .ok (convolveValid data (List.replicate window (1 / (window : ℚ))))

/-- `np.amax` of a nonempty list (the empty case is unreachable behind the
emptiness guards and is given value 0). -/
def amax : List ℚ → ℚ
  | [] => 0
  | h :: t => t.foldl max h

/-- `np.amin` of a nonempty list. -/
def amin : List ℚ → ℚ
  | [] => 0
  | h :: t => t.foldl min h

/-- `np.mean` of a list, its sum written as an indexed sum over positions. -/
def meanL (l : List ℚ) : ℚ := (∑ i ∈ Finset.range l.length, l.getD i 0) / l.length

/-- `predict_trend(x, y)`, following `scipy.stats.linregress` and returning
`(slope, intercept, r_value ** 2)`: it raises for an empty input, raises when
all x values are identical and `len(x) > 1`, and raises when the two arrays
have mismatched lengths (from `np.cov`); otherwise, with `ssxm`, `ssxym`,
`ssym` the `bias=1` covariance entries, `r = 0` when `ssxm` or `ssym` is
zero and otherwise the Pearson coefficient clipped to `[-1, 1]` (so
`r**2 = min(raw**2, 1)`), `slope = ssxym / ssxm` and
`intercept = ymean - slope * xmean`. The `0/0` slope division, reachable
only for a length-1 input, yields an IEEE NaN, modelled as `none`. -/
def predict_trend (x y : List ℚ) : Except String (Option ℚ × Option ℚ × ℚ) :=
  if x.length = 0 ∨ y.length = 0 then
    .error "Inputs must not be empty."
  else if amax x = amin x ∧ 1 < x.length then
    .error "Cannot calculate a linear regression if all x values are identical"
  else if x.length ≠ y.length then
    .error "ValueError: array dimensions must match"
  else
    let n : ℚ := x.length
    let xmean := meanL x
    let ymean := meanL y
    let ssxm := (∑ i ∈ Finset.range x.length, (x.getD i 0 - xmean) ^ 2) / n
    let ssym := (∑ i ∈ Finset.range x.length, (y.getD i 0 - ymean) ^ 2) / n
    let ssxym := (∑ i ∈ Finset.range x.length, (x.getD i 0 - xmean) * (y.getD i 0 - ymean)) / n
    let r2 := if ssxm = 0 ∨ ssym = 0 then 0 else min (ssxym ^ 2 / (ssxm * ssym)) 1
    let slope : Option ℚ := if ssxm = 0 then none else some (ssxym / ssxm)
    let intercept : Option ℚ := slope.map (fun s => ymean - s * xmean)
    .ok (slope, intercept, r2)

/-- Trend direction thresholds of `generate_trend_narrative` (lines 52-57):
stable below `0.01` in absolute value, else the sign decides. -/
def trendDirection (slope : ℚ) : String :=
  if |slope| < 1/100 then "stable"
  else if 0 < slope then "increasing"
  else "decreasing"

/-- Confidence note of `generate_trend_narrative` (line 60). -/
def confidence_note (r2 : ℚ) : String :=
  if 7/10 < r2 then "Trend analysis is highly reliable"
  else "Trend analysis should be interpreted cautiously"

/-- The `trend_descriptions` table: five metrics times three directions; an
unknown key is a Python `KeyError`, modelled as `none`. -/
def trend_descriptions (parameter trend : String) : Option String :=
  if parameter = "temperature" then
    if trend = "increasing" then some "Temperature is steadily rising, indicating heat accumulation."
    else if trend = "decreasing" then some "Temperature is declining, suggesting cooling or external climate influences."
    else if trend = "stable" then some "Temperature remains relatively constant."
    else none
  else if parameter = "humidity" then
    if trend = "increasing" then some "Humidity is gradually increasing, potentially indicating higher moisture content."
    else if trend = "decreasing" then some "Humidity is decreasing, making the environment drier."
    else if trend = "stable" then some "Humidity remains consistent."
    else none
  else if parameter = "soil_moisture" then
    if trend = "increasing" then some "Soil moisture is increasing, possibly due to irrigation or environmental changes."
    else if trend = "decreasing" then some "Soil moisture is decreasing, which might require attention to plant hydration."
    else if trend = "stable" then some "Soil moisture remains steady."
    else none
  else if parameter = "light_level" then
    if trend = "increasing" then some "Light intensity is continuously increasing, reflecting changing daylight."
    else if trend = "decreasing" then some "Light intensity is diminishing, possibly due to cloud cover or time of day."
    else if trend = "stable" then some "Light intensity remains constant."
    else none
  else if parameter = "co2_level" then
    if trend = "increasing" then some "CO2 concentration is rising, potentially indicating ventilation issues."
    else if trend = "decreasing" then some "CO2 concentration is dropping, suggesting good ventilation or plant photosynthesis."
    else if trend = "stable" then some "CO2 levels remain relatively stable."
    else none
  else none

/-- Python `f"{q:.2f}"` on an exact rational: round to two decimals with
ties to even and print with exactly two fraction digits. -/
def format2 (q : ℚ) : String :=
  let n := roundHalfEven (100 * q)
  let s := if n < 0 then "-" else ""
  let m := n.natAbs
  s ++ toString (m / 100) ++ "." ++ (if m % 100 < 10 then "0" else "") ++ toString (m % 100)

/-- `generate_trend_narrative(parameter, slope, r2)`: the f-string
`f"{description} {confidence_note}, statistical fit R² = {r2:.2f}."`. -/
def generate_trend_narrative (parameter : String) (slope r2 : ℚ) : Option String :=
  (trend_descriptions parameter (trendDirection slope)).map
    (fun d => d ++ " " ++ confidence_note r2 ++ ", statistical fit R² = " ++ format2 r2 ++ ".")

/-- The five narrative strings keyed by metric. -/
structure NarrativeMap where
  temperature : Option String
  humidity : Option String
  soil_moisture : Option String
  light_level : Option String
  co2_level : Option String

/-- The `trend_narratives` dictionary built by `create_visualization`
(lines 174-180): each metric narrated from its own fitted slope and R²
pair, except humidity, which is invoked with the constants `(0, 0)`. -/
def trend_narratives (temp soil light co2 : ℚ × ℚ) : NarrativeMap :=
  { temperature := generate_trend_narrative "temperature" temp.1 temp.2
    humidity := generate_trend_narrative "humidity" 0 0
    soil_moisture := generate_trend_narrative "soil_moisture" soil.1 soil.2
    light_level := generate_trend_narrative "light_level" light.1 light.2
    co2_level := generate_trend_narrative "co2_level" co2.1 co2.2 }

/-- Centered sum of squares of x, the spec's `Σ (xᵢ - x̄)²` (§4.4). -/
def specSxx (x : List ℚ) : ℚ :=
  ∑ i ∈ Finset.range x.length, (x.getD i 0 - meanL x) ^ 2

/-- Centered cross sum, the spec's `Σ (xᵢ - x̄)(yᵢ - ȳ)` over positions of
x (§4.4). -/
def specSxy (x y : List ℚ) : ℚ :=
  ∑ i ∈ Finset.range x.length, (x.getD i 0 - meanL x) * (y.getD i 0 - meanL y)

/-- Centered sum of squares of y over positions of x (§4.4). -/
def specSyy (x y : List ℚ) : ℚ :=
  ∑ i ∈ Finset.range x.length, (y.getD i 0 - meanL y) ^ 2

/-- The spec's standard closed-form OLS slope (§4.4). -/
def specOlsSlope (x y : List ℚ) : ℚ := specSxy x y / specSxx x

/-- The spec's OLS intercept `ȳ - slope * x̄` (§4.4). -/
def specOlsIntercept (x y : List ℚ) : ℚ := meanL y - specOlsSlope x y * meanL x

/-- The spec's `r_squared`: square of the Pearson correlation coefficient
(§4.4). -/
def specPearsonSq (x y : List ℚ) : ℚ := specSxy x y ^ 2 / (specSxx x * specSyy x y)

/-! Arithmetic lemmas about the rounding and truncation primitives. -/

lemma le_roundHalfEven {n : ℤ} {q : ℚ} (h : (n : ℚ) ≤ q) : n ≤ roundHalfEven q := by
  have h1 : n ≤ ⌊q⌋ := Int.le_floor.mpr h
  unfold roundHalfEven
  split_ifs <;> omega

lemma roundHalfEven_le {n : ℤ} {q : ℚ} (h : q ≤ (n : ℚ)) : roundHalfEven q ≤ n := by
  have h1 : ⌊q⌋ ≤ n := by
    have h2 := Int.floor_le_floor h
    simpa using h2
  have key : ¬(q - (⌊q⌋ : ℚ) < 1/2) → ⌊q⌋ + 1 ≤ n := by
    intro h2
    have h3 : (⌊q⌋ : ℚ) < q := by
      have h4 := Int.floor_le q
      linarith
    have h5 : (⌊q⌋ : ℚ) < (n : ℚ) := lt_of_lt_of_le h3 h
    have h6 : ⌊q⌋ < n := by exact_mod_cast h5
    omega
  unfold roundHalfEven
  split_ifs with h2 h3 h4
  · exact h1
  · exact key h2
  · exact h1
  · exact key h2

lemma roundTo1_bounds {lo hi : ℤ} {q : ℚ} (h1 : (lo : ℚ) ≤ q) (h2 : q ≤ (hi : ℚ)) :
    (lo : ℚ) ≤ roundTo1 q ∧ roundTo1 q ≤ (hi : ℚ) := by
  have g1 : 10 * lo ≤ roundHalfEven (10 * q) :=
    le_roundHalfEven (by push_cast; linarith)
  have g2 : roundHalfEven (10 * q) ≤ 10 * hi :=
    roundHalfEven_le (by push_cast; linarith)
  unfold roundTo1
  constructor
  · rw [le_div_iff₀ (by norm_num : (0:ℚ) < 10)]
    calc (lo : ℚ) * 10 = ((10 * lo : ℤ) : ℚ) := by push_cast; ring
    _ ≤ _ := by exact_mod_cast g1
  · rw [div_le_iff₀ (by norm_num : (0:ℚ) < 10)]
    calc ((roundHalfEven (10 * q) : ℤ) : ℚ) ≤ ((10 * hi : ℤ) : ℚ) := by exact_mod_cast g2
    _ = (hi : ℚ) * 10 := by push_cast; ring

lemma intTrunc_eq_floor {q : ℚ} (h : 0 ≤ q) : intTrunc q = ⌊q⌋ := if_pos h

lemma intTrunc_bounds {lo hi : ℤ} {q : ℚ} (h0 : (0 : ℚ) ≤ (lo : ℚ))
    (h1 : (lo : ℚ) ≤ q) (h2 : q ≤ (hi : ℚ)) :
    lo ≤ intTrunc q ∧ intTrunc q ≤ hi := by
  rw [intTrunc_eq_floor (le_trans h0 h1)]
  refine ⟨Int.le_floor.mpr h1, ?_⟩
  have h3 := Int.floor_le_floor h2
  simpa using h3

/-- Clamping between a lower and an upper bound gives the same value whether
written `min (max v lo) hi` (humidity, soil moisture) or
`max (min v hi) lo` (temperature, and the spec's canonical form). -/
lemma clamp_comm (v lo hi : ℚ) (h : lo ≤ hi) :
    min (max v lo) hi = max (min v hi) lo := by
  simp only [min_def, max_def]
  split_ifs <;> linarith

/-- Field-level bounds for one generated document, for every sine table,
noise realisation, interval and index. -/
lemma mkDoc_bounds (sinT : ℕ → ℚ) (ν : Noise) (interval i : ℕ) :
    15 ≤ (mkDoc sinT ν interval i).temperature ∧
    (mkDoc sinT ν interval i).temperature ≤ 35 ∧
    60 ≤ (mkDoc sinT ν interval i).humidity ∧
    (mkDoc sinT ν interval i).humidity ≤ 90 ∧
    50 ≤ (mkDoc sinT ν interval i).soil_moisture ∧
    (mkDoc sinT ν interval i).soil_moisture ≤ 80 ∧
    0 ≤ (mkDoc sinT ν interval i).light_level ∧
    400 ≤ (mkDoc sinT ν interval i).co2_level := by
  unfold mkDoc
  dsimp only
  have temp := @roundTo1_bounds 15 35
    (max (min (25 + temp_cycle sinT (hourAt interval i) + ν.temp i) 35) 15)
    (by push_cast; exact le_max_right _ _)
    (by push_cast; exact max_le (min_le_right _ _) (by norm_num))
  have hum := @intTrunc_bounds 60 90 (min (max (75 + ν.humidity i) 60) 90)
    (by norm_num) (by push_cast; exact le_min (le_max_right _ _) (by norm_num))
    (by push_cast; exact min_le_right _ _)
  have soil := @intTrunc_bounds 50 80 (min (max (65 + ν.soil i) 50) 80)
    (by norm_num) (by push_cast; exact le_min (le_max_right _ _) (by norm_num))
    (by push_cast; exact min_le_right _ _)
  refine ⟨?_, ?_, ?_, ?_, ?_, ?_, ?_, ?_⟩
  · exact_mod_cast temp.1
  · exact_mod_cast temp.2
  · exact hum.1
  · exact hum.2
  · exact soil.1
  · exact soil.2
  · exact le_max_right _ _
  · exact le_max_right _ _

lemma generateDataGen_getD (n interval k : ℕ) (sinT : ℕ → ℚ) (ν : Noise)
    (hk : k < n) :
    (generateDataGen n interval sinT ν).getD k default = mkDoc sinT ν interval k := by
  unfold generateDataGen
  rw [List.getD_eq_getElem _ _ (by simpa using hk)]
  simp

/-- C1: every Reading produced by a generation run has each metric value in
its declared closed bound range — temperature in [15, 35], humidity in
[60, 90], soil moisture in [50, 80], light level ≥ 0 and CO2 level ≥ 400 —
the bound being enforced by the hard clamp `max(min(value, upper), lower)`
applied after adding the cycle and the noise (rounding or integer truncation
comes last and stays inside the range). -/
theorem generated_readings_within_bounds
    (n interval : ℕ) (sinT : ℕ → ℚ) (ν : Noise) (d : Doc)
    (hd : d ∈ generateDataGen n interval sinT ν) :
    (15 ≤ d.temperature ∧ d.temperature ≤ 35 ∧
     60 ≤ d.humidity ∧ d.humidity ≤ 90 ∧
     50 ≤ d.soil_moisture ∧ d.soil_moisture ≤ 80 ∧
     0 ≤ d.light_level ∧ 400 ≤ d.co2_level) ∧
    ∃ i, i < n ∧
      d.temperature =
        roundTo1 (max (min (25 + temp_cycle sinT (hourAt interval i) + ν.temp i) 35) 15) ∧
      d.humidity = intTrunc (max (min (75 + ν.humidity i) 90) 60) := by
  rcases List.mem_map.mp hd with ⟨i, hi, rfl⟩
  refine ⟨mkDoc_bounds sinT ν interval i, i, List.mem_range.mp hi, rfl, ?_⟩
  show intTrunc (min (max (75 + ν.humidity i) 60) 90) = _
  rw [clamp_comm _ _ _ (by norm_num : (60:ℚ) ≤ 90)]

/-- Witness for C1 at a concrete run: one sample, zero sine table and zero
noise. -/
theorem generated_readings_within_bounds_witness :
    (mkDoc zeroSin noNoise 30 0 ∈ generateDataGen 1 30 zeroSin noNoise) ∧
    ((15 ≤ (mkDoc zeroSin noNoise 30 0).temperature ∧
      (mkDoc zeroSin noNoise 30 0).temperature ≤ 35 ∧
      60 ≤ (mkDoc zeroSin noNoise 30 0).humidity ∧
      (mkDoc zeroSin noNoise 30 0).humidity ≤ 90 ∧
      50 ≤ (mkDoc zeroSin noNoise 30 0).soil_moisture ∧
      (mkDoc zeroSin noNoise 30 0).soil_moisture ≤ 80 ∧
      0 ≤ (mkDoc zeroSin noNoise 30 0).light_level ∧
      400 ≤ (mkDoc zeroSin noNoise 30 0).co2_level) ∧
     ∃ i, i < 1 ∧
       (mkDoc zeroSin noNoise 30 0).temperature =
         roundTo1 (max (min (25 + temp_cycle zeroSin (hourAt 30 i) + noNoise.temp i) 35) 15) ∧
       (mkDoc zeroSin noNoise 30 0).humidity =
         intTrunc (max (min (75 + noNoise.humidity i) 90) 60)) :=
  ⟨by simp [generateDataGen],
   generated_readings_within_bounds 1 30 zeroSin noNoise _ (by simp [generateDataGen])⟩

/-- C8: a generation run over `n ≥ 1` samples at a positive `interval`
produces exactly `n` readings, the `k`-th timestamped `start + k*interval`
minutes, strictly increasing with uniform spacing; in the reference run of
48 samples at 30 minutes the source's `generate_data` returns exactly 48
readings, all inside the one simulated day of 1440 minutes. -/
theorem series_length_and_timestamps
    (n interval : ℕ) (sinT : ℕ → ℚ) (ν : Noise)
    (_hn : 1 ≤ n) (hint : 0 < interval) :
    (generateDataGen n interval sinT ν).length = n ∧
    (∀ k, k < n →
      ((generateDataGen n interval sinT ν).getD k default).timestampMin = interval * k) ∧
    (∀ j k, j < k → k < n →
      ((generateDataGen n interval sinT ν).getD j default).timestampMin <
        ((generateDataGen n interval sinT ν).getD k default).timestampMin) ∧
    (generate_data sinT ν).length = 48 ∧
    (∀ d ∈ generate_data sinT ν, d.timestampMin < 1440) := by
  have hts : ∀ k, k < n →
      ((generateDataGen n interval sinT ν).getD k default).timestampMin = interval * k := by
    intro k hk
    rw [generateDataGen_getD n interval k sinT ν hk]
    rfl
  refine ⟨by simp [generateDataGen], hts, ?_, by simp [generate_data, generateDataGen], ?_⟩
  · intro j k hjk hk
    rw [hts j (lt_trans hjk hk), hts k hk]
    exact Nat.mul_lt_mul_of_pos_left hjk hint
  · intro d hd
    rcases List.mem_map.mp hd with ⟨i, hi, rfl⟩
    have hi48 : i < 48 := List.mem_range.mp hi
    show 30 * i < 1440
    omega

/-- Witness for C8 at the reference configuration, 48 samples every 30
minutes, with the zero sine table and zero noise. -/
theorem series_length_and_timestamps_witness :
    (1 ≤ 48 ∧ 0 < 30) ∧
    ((generateDataGen 48 30 zeroSin noNoise).length = 48 ∧
     (∀ k, k < 48 →
       ((generateDataGen 48 30 zeroSin noNoise).getD k default).timestampMin = 30 * k) ∧
     (∀ j k, j < k → k < 48 →
       ((generateDataGen 48 30 zeroSin noNoise).getD j default).timestampMin <
         ((generateDataGen 48 30 zeroSin noNoise).getD k default).timestampMin) ∧
     (generate_data zeroSin noNoise).length = 48 ∧
     (∀ d ∈ generate_data zeroSin noNoise, d.timestampMin < 1440)) :=
  ⟨⟨by decide, by decide⟩,
   series_length_and_timestamps 48 30 zeroSin noNoise (by decide) (by decide)⟩

/-- C10: the deterministic cycles are evaluated at the integer clock hour of
the reading's timestamp (minutes discarded), so under the 30-minute interval
the two readings of indices `2k` and `2k+1` share the clock hour `k` and all
three deterministic cycle values, and their sensor data coincide entirely
whenever the respective noise draws coincide — they differ only by their
independently sampled noise. -/
theorem same_hour_pair_readings
    (sinT : ℕ → ℚ) (ν ν' : Noise) (k : ℕ) (hk : k < 24) :
    hourAt 30 (2 * k) = k ∧ hourAt 30 (2 * k + 1) = k ∧
    temp_cycle sinT (hourAt 30 (2 * k)) = temp_cycle sinT (hourAt 30 (2 * k + 1)) ∧
    light_cycle sinT (hourAt 30 (2 * k)) = light_cycle sinT (hourAt 30 (2 * k + 1)) ∧
    co2_cycle sinT (hourAt 30 (2 * k)) = co2_cycle sinT (hourAt 30 (2 * k + 1)) ∧
    (ν.temp (2 * k) = ν'.temp (2 * k + 1) →
     ν.humidity (2 * k) = ν'.humidity (2 * k + 1) →
     ν.soil (2 * k) = ν'.soil (2 * k + 1) →
     ν.light (2 * k) = ν'.light (2 * k + 1) →
     ν.co2 (2 * k) = ν'.co2 (2 * k + 1) →
      ((mkDoc sinT ν 30 (2 * k)).temperature = (mkDoc sinT ν' 30 (2 * k + 1)).temperature ∧
       (mkDoc sinT ν 30 (2 * k)).humidity = (mkDoc sinT ν' 30 (2 * k + 1)).humidity ∧
       (mkDoc sinT ν 30 (2 * k)).soil_moisture = (mkDoc sinT ν' 30 (2 * k + 1)).soil_moisture ∧
       (mkDoc sinT ν 30 (2 * k)).light_level = (mkDoc sinT ν' 30 (2 * k + 1)).light_level ∧
       (mkDoc sinT ν 30 (2 * k)).co2_level = (mkDoc sinT ν' 30 (2 * k + 1)).co2_level)) := by
  have h1 : hourAt 30 (2 * k) = k := by unfold hourAt; omega
  have h2 : hourAt 30 (2 * k + 1) = k := by unfold hourAt; omega
  refine ⟨h1, h2, by rw [h1, h2], by rw [h1, h2], by rw [h1, h2], ?_⟩
  intro e1 e2 e3 e4 e5
  unfold mkDoc
  rw [h1, h2, e1, e2, e3, e4, e5]
  exact ⟨rfl, rfl, rfl, rfl, rfl⟩

/-- Witness for C10 at the first same-hour pair (indices 0 and 1, hour 0)
with the zero sine table and zero noise. -/
theorem same_hour_pair_readings_witness :
    0 < 24 ∧
    (hourAt 30 (2 * 0) = 0 ∧ hourAt 30 (2 * 0 + 1) = 0 ∧
     temp_cycle zeroSin (hourAt 30 (2 * 0)) = temp_cycle zeroSin (hourAt 30 (2 * 0 + 1)) ∧
     light_cycle zeroSin (hourAt 30 (2 * 0)) = light_cycle zeroSin (hourAt 30 (2 * 0 + 1)) ∧
     co2_cycle zeroSin (hourAt 30 (2 * 0)) = co2_cycle zeroSin (hourAt 30 (2 * 0 + 1)) ∧
     (noNoise.temp (2 * 0) = noNoise.temp (2 * 0 + 1) →
      noNoise.humidity (2 * 0) = noNoise.humidity (2 * 0 + 1) →
      noNoise.soil (2 * 0) = noNoise.soil (2 * 0 + 1) →
      noNoise.light (2 * 0) = noNoise.light (2 * 0 + 1) →
      noNoise.co2 (2 * 0) = noNoise.co2 (2 * 0 + 1) →
       ((mkDoc zeroSin noNoise 30 (2 * 0)).temperature =
          (mkDoc zeroSin noNoise 30 (2 * 0 + 1)).temperature ∧
        (mkDoc zeroSin noNoise 30 (2 * 0)).humidity =
          (mkDoc zeroSin noNoise 30 (2 * 0 + 1)).humidity ∧
        (mkDoc zeroSin noNoise 30 (2 * 0)).soil_moisture =
          (mkDoc zeroSin noNoise 30 (2 * 0 + 1)).soil_moisture ∧
        (mkDoc zeroSin noNoise 30 (2 * 0)).light_level =
          (mkDoc zeroSin noNoise 30 (2 * 0 + 1)).light_level ∧
        (mkDoc zeroSin noNoise 30 (2 * 0)).co2_level =
          (mkDoc zeroSin noNoise 30 (2 * 0 + 1)).co2_level))) :=
  ⟨by decide, same_hour_pair_readings zeroSin noNoise noNoise 0 (by decide)⟩

/-! List computation lemmas for the convolution and regression proofs. -/

lemma getD_replicate {w k : ℕ} {c : ℚ} (hk : k < w) :
    (List.replicate w c).getD k 0 = c := by
  rw [List.getD_eq_getElem _ _ (by simpa using hk)]
  simp

lemma take_drop_sum (l : List ℚ) (i : ℕ) :
    ∀ w, i + w ≤ l.length →
      ((l.drop i).take w).sum = ∑ j ∈ Finset.range w, l.getD (i + j) 0 := by
  intro w
  induction w with
  | zero => simp
  | succ n ih =>
    intro h
    have h' : i + n ≤ l.length := by omega
    have hn : i + n < l.length := by omega
    rw [List.take_succ, List.sum_append, ih h', Finset.sum_range_succ]
    congr 1
    rw [List.getElem?_drop, List.getElem?_eq_getElem hn]
    simp [List.getElem?_eq_getElem hn]

lemma sum_getD_range (l : List ℚ) :
    ∑ i ∈ Finset.range l.length, l.getD i 0 = l.sum := by
  have h := take_drop_sum l 0 l.length (by simp)
  simpa using h.symm

lemma map_getD_self (l : List ℚ) :
    (List.range l.length).map (fun i => l.getD i 0) = l := by
  apply List.ext_getElem
  · simp
  · intro i h1 h2
    simp only [List.length_range] at h1
    simp [List.getElem?_eq_getElem h2]

/-- For a window inside the series length, the smoother is the list of
window sums divided by the window size. -/
lemma calculate_moving_average_eq (data : List ℚ) (w : ℕ)
    (h1 : 1 ≤ w) (h2 : w ≤ data.length) :
    calculate_moving_average data w =
      .ok ((List.range (data.length - w + 1)).map (fun i =>
        (∑ j ∈ Finset.range w, data.getD (i + j) 0) / (w : ℚ))) := by
  have hne : data ≠ [] := by
    intro he
    rw [he] at h2
    simp at h2
    omega
  have hw : ¬(w = 0 ∨ data = []) := by
    push_neg
    exact ⟨by omega, hne⟩
  simp only [calculate_moving_average, if_neg hw]
  congr 1
  unfold convolveValid
  rw [if_pos (by simpa using h2)]
  simp only [List.length_replicate]
  apply List.map_congr_left
  intro i _
  have hrep : ∀ j ∈ Finset.range w,
      data.getD (i + j) 0 * (List.replicate w (1 / (w : ℚ))).getD (w - 1 - j) 0 =
        data.getD (i + j) 0 * (1 / (w : ℚ)) := by
    intro j hj
    rw [getD_replicate (by have := Finset.mem_range.mp hj; omega)]
  rw [Finset.sum_congr rfl hrep, ← Finset.sum_mul, mul_one_div]

/-- C2: for 1 ≤ w ≤ L the moving-average smoother returns a sequence of
length L - w + 1 whose element i is the mean of input[i..i+w-1]; for w = 1
the output is the input unchanged, and for w = L it is the single-element
list holding the mean of the whole input. -/
theorem moving_average_valid_window (data : List ℚ) (w : ℕ)
    (h1 : 1 ≤ w) (h2 : w ≤ data.length) :
    ∃ out, calculate_moving_average data w = .ok out ∧
      out.length = data.length - w + 1 ∧
      (∀ i, i < out.length → out.getD i 0 = ((data.drop i).take w).sum / (w : ℚ)) ∧
      (w = 1 → out = data) ∧
      (w = data.length → out = [data.sum / (w : ℚ)]) := by
  refine ⟨_, calculate_moving_average_eq data w h1 h2, by simp, ?_, ?_, ?_⟩
  · intro i hi
    simp only [List.length_map, List.length_range] at hi
    rw [List.getD_eq_getElem _ _ (by simpa using hi)]
    simp only [List.getElem_map, List.getElem_range]
    rw [take_drop_sum data i w (by omega)]
  · intro hw1
    subst hw1
    have hL : data.length - 1 + 1 = data.length := by omega
    rw [hL]
    simpa [Finset.sum_range_one] using map_getD_self data
  · intro hwL
    subst hwL
    have h0 : data.length - data.length + 1 = 1 := by omega
    rw [h0]
    have hr1 : List.range 1 = [0] := rfl
    rw [hr1]
    simp only [List.map_cons, List.map_nil, zero_add]
    rw [sum_getD_range]

/-- Witness for C2 on the series [1, 2, 3] with window 2. -/
theorem moving_average_valid_window_witness :
    (1 ≤ 2 ∧ 2 ≤ ([1, 2, 3] : List ℚ).length) ∧
    ∃ out, calculate_moving_average [1, 2, 3] 2 = .ok out ∧
      out.length = ([1, 2, 3] : List ℚ).length - 2 + 1 ∧
      (∀ i, i < out.length →
        out.getD i 0 = ((([1, 2, 3] : List ℚ).drop i).take 2).sum / ((2 : ℕ) : ℚ)) ∧
      (2 = 1 → out = [1, 2, 3]) ∧
      (2 = ([1, 2, 3] : List ℚ).length → out = [([1, 2, 3] : List ℚ).sum / ((2 : ℕ) : ℚ)]) :=
  ⟨⟨by norm_num, by norm_num⟩, moving_average_valid_window [1, 2, 3] 2 (by norm_num) (by norm_num)⟩

/-- C6 counterexample: a window larger than the series length does not make
the smoother fail — with data [1, 2] and window 3 it succeeds and returns
[1, 1] (each element the data sum divided by the window). -/
theorem moving_average_oversized_window_counterexample :
    ([1, 2] : List ℚ).length < 3 ∧
    calculate_moving_average [1, 2] 3 = .ok [1, 1] := by
  refine ⟨by norm_num, ?_⟩
  simp [calculate_moving_average, convolveValid, List.range_succ,
    Finset.sum_range_succ, List.replicate_succ]
  norm_num

/-- C6 amended: the smoother fails exactly when the window is smaller
than 1 or the series is empty (numpy's empty-operand `ValueError`; the
repository defines no `InvalidWindowError`); a window larger than a
nonempty series does not fail but yields the swapped valid-mode
convolution: `w - L + 1` copies of `sum(data)/w`. -/
theorem moving_average_failure_characterisation (data : List ℚ) (w : ℕ) :
    ((calculate_moving_average data w).isOk = true ↔ (1 ≤ w ∧ data ≠ [])) ∧
    (data.length < w → data ≠ [] →
      calculate_moving_average data w =
        .ok (List.replicate (w - data.length + 1) (data.sum / (w : ℚ)))) := by
  constructor
  · by_cases h : w = 0 ∨ data = []
    · rw [calculate_moving_average, if_pos h]
      constructor
      · intro hh
        exact absurd hh (by simp [Except.isOk, Except.toBool])
      · intro hh
        rcases h with h0 | h0
        · omega
        · exact absurd h0 hh.2
    · rw [calculate_moving_average, if_neg h]
      push_neg at h
      exact ⟨fun _ => ⟨by omega, h.2⟩, fun _ => rfl⟩
  · intro hlt hne
    have hw0 : w ≠ 0 := by omega
    rw [calculate_moving_average, if_neg (by push_neg; exact ⟨hw0, hne⟩)]
    congr 1
    unfold convolveValid
    rw [if_neg (by simp; omega)]
    simp only [List.length_replicate]
    apply List.eq_replicate_iff.mpr
    refine ⟨by simp, ?_⟩
    intro b hb
    rcases List.mem_map.mp hb with ⟨i, hi, rfl⟩
    have hiw : i ≤ w - data.length := by
      have := List.mem_range.mp hi
      omega
    have hrep : ∀ j ∈ Finset.range data.length,
        (List.replicate w (1 / (w : ℚ))).getD (i + j) 0 *
            data.getD (data.length - 1 - j) 0 =
          (1 / (w : ℚ)) * data.getD (data.length - 1 - j) 0 := by
      intro j hj
      rw [getD_replicate (by have := Finset.mem_range.mp hj; omega)]
    rw [Finset.sum_congr rfl hrep, ← Finset.mul_sum,
      Finset.sum_range_reflect (fun j => data.getD j 0) data.length,
      sum_getD_range, one_div_mul_eq_div]

/-- Witness for the amended C6 on data [1, 2] with window 3. -/
theorem moving_average_failure_characterisation_witness :
    (([1, 2] : List ℚ).length < 3 ∧ ([1, 2] : List ℚ) ≠ []) ∧
    calculate_moving_average [1, 2] 3 =
      .ok (List.replicate (3 - ([1, 2] : List ℚ).length + 1)
        (([1, 2] : List ℚ).sum / ((3 : ℕ) : ℚ))) :=
  ⟨⟨by norm_num, by simp⟩,
   (moving_average_failure_characterisation [1, 2] 3).2 (by norm_num) (by simp)⟩

/-! Lemmas about `amax` and `amin`, and the regression sums. -/

lemma foldl_max_mem (t : List ℚ) (b : ℚ) : t.foldl max b ∈ b :: t := by
  induction t generalizing b with
  | nil => simp
  | cons c t ih =>
    have h := ih (max b c)
    rcases List.mem_cons.mp h with h1 | h1
    · rcases max_choice b c with hm | hm
      · rw [List.foldl_cons, h1, hm]
        simp
      · rw [List.foldl_cons, h1, hm]
        simp
    · rw [List.foldl_cons]
      exact List.mem_cons_of_mem _ (List.mem_cons_of_mem _ h1)

lemma foldl_min_mem (t : List ℚ) (b : ℚ) : t.foldl min b ∈ b :: t := by
  induction t generalizing b with
  | nil => simp
  | cons c t ih =>
    have h := ih (min b c)
    rcases List.mem_cons.mp h with h1 | h1
    · rcases min_choice b c with hm | hm
      · rw [List.foldl_cons, h1, hm]
        simp
      · rw [List.foldl_cons, h1, hm]
        simp
    · rw [List.foldl_cons]
      exact List.mem_cons_of_mem _ (List.mem_cons_of_mem _ h1)

lemma le_foldl_max (t : List ℚ) (b : ℚ) :
    b ≤ t.foldl max b ∧ ∀ a ∈ t, a ≤ t.foldl max b := by
  induction t generalizing b with
  | nil => simp
  | cons c t ih =>
    have h := ih (max b c)
    rw [List.foldl_cons]
    refine ⟨le_trans (le_max_left b c) h.1, ?_⟩
    intro a ha
    rcases List.mem_cons.mp ha with h1 | h1
    · rw [h1]
      exact le_trans (le_max_right b c) h.1
    · exact h.2 a h1

lemma foldl_min_le (t : List ℚ) (b : ℚ) :
    t.foldl min b ≤ b ∧ ∀ a ∈ t, t.foldl min b ≤ a := by
  induction t generalizing b with
  | nil => simp
  | cons c t ih =>
    have h := ih (min b c)
    rw [List.foldl_cons]
    refine ⟨le_trans h.1 (min_le_left b c), ?_⟩
    intro a ha
    rcases List.mem_cons.mp ha with h1 | h1
    · rw [h1]
      exact le_trans h.1 (min_le_right b c)
    · exact h.2 a h1

lemma amax_mem {l : List ℚ} (h : l ≠ []) : amax l ∈ l := by
  cases l with
  | nil => exact absurd rfl h
  | cons b t => exact foldl_max_mem t b

lemma amin_mem {l : List ℚ} (h : l ≠ []) : amin l ∈ l := by
  cases l with
  | nil => exact absurd rfl h
  | cons b t => exact foldl_min_mem t b

lemma le_amax {l : List ℚ} {a : ℚ} (h : a ∈ l) : a ≤ amax l := by
  cases l with
  | nil => simp at h
  | cons b t =>
    rcases List.mem_cons.mp h with h1 | h1
    · rw [h1]
      exact (le_foldl_max t b).1
    · exact (le_foldl_max t b).2 a h1

lemma amin_le {l : List ℚ} {a : ℚ} (h : a ∈ l) : amin l ≤ a := by
  cases l with
  | nil => simp at h
  | cons b t =>
    rcases List.mem_cons.mp h with h1 | h1
    · rw [h1]
      exact (foldl_min_le t b).1
    · exact (foldl_min_le t b).2 a h1

lemma all_eq_of_sum_sq_zero {x : List ℚ} {m : ℚ}
    (h : ∑ i ∈ Finset.range x.length, (x.getD i 0 - m) ^ 2 = 0) :
    ∀ a ∈ x, a = m := by
  intro a ha
  rcases List.mem_iff_getElem.mp ha with ⟨i, hi, rfl⟩
  have h2 := (Finset.sum_eq_zero_iff_of_nonneg
    (fun j _ => sq_nonneg (x.getD j 0 - m))).mp h i (Finset.mem_range.mpr hi)
  have h3 : x.getD i 0 - m = 0 := by
    exact pow_eq_zero_iff (by norm_num) |>.mp h2
  rw [List.getD_eq_getElem x 0 hi] at h3
  linarith

lemma amax_eq_amin_of_all_eq {l : List ℚ} (hne : l ≠ []) {m : ℚ}
    (h : ∀ a ∈ l, a = m) : amax l = amin l := by
  rw [h _ (amax_mem hne), h _ (amin_mem hne)]

lemma div_div_same (a b c : ℚ) (hc : c ≠ 0) : (a / c) / (b / c) = a / b := by
  rcases eq_or_ne b 0 with hb | hb
  · rw [hb]
    simp
  · field_simp

/-- C7 counterexample: a single-point input, of length 1 < 2, makes
`predict_trend` succeed rather than fail — linregress skips its
identical-x check when `len(x) = 1` and returns a NaN slope and intercept
(modelled `none`) with r² = 0. -/
theorem predict_trend_single_point_counterexample :
    ([(0 : ℚ)] : List ℚ).length < 2 ∧ predict_trend [0] [5] = .ok (none, none, 0) := by
  refine ⟨by norm_num, ?_⟩
  simp [predict_trend, amax, amin, meanL, Finset.sum_range_one]

/-- C7 amended: for equal-length inputs the trend fitter fails exactly when
the input is empty or when it has at least two points and x has zero spread
(`amax x = amin x`); on at least two points with nonconstant x it returns
the standard closed-form OLS slope and intercept, and r_squared equal to
the squared Pearson correlation coefficient when y is nonconstant and to 0
when y is constant. A single-point input succeeds with NaN slope. -/
theorem predict_trend_characterisation (x y : List ℚ)
    (hlen : x.length = y.length) :
    ((predict_trend x y).isOk = true ↔
      ¬(x.length = 0 ∨ (amax x = amin x ∧ 1 < x.length))) ∧
    (2 ≤ x.length → amax x ≠ amin x →
      predict_trend x y =
        .ok (some (specOlsSlope x y), some (specOlsIntercept x y),
          if specSyy x y = 0 then 0 else specPearsonSq x y)) := by
  constructor
  · by_cases h1 : x.length = 0 ∨ y.length = 0
    · have hx0 : x.length = 0 := by omega
      rw [predict_trend, if_pos h1]
      simp [Except.isOk, Except.toBool, hx0]
    · rw [predict_trend, if_neg h1]
      by_cases h2 : amax x = amin x ∧ 1 < x.length
      · rw [if_pos h2]
        simp [Except.isOk, Except.toBool, h2]
      · rw [if_neg h2, if_neg (by simp [hlen])]
        simp only [Except.isOk, Except.toBool]
        constructor
        · intro _
          push_neg
          refine ⟨by omega, ?_⟩
          intro ha
          by_contra hb
          push_neg at hb
          exact h2 ⟨ha, by omega⟩
        · intro _
          trivial
  · intro hL hne
    have hx0 : ¬(x.length = 0 ∨ y.length = 0) := by push_neg; omega
    have hg : ¬(amax x = amin x ∧ 1 < x.length) := fun hc => hne hc.1
    have hxy : ¬(x.length ≠ y.length) := by simp [hlen]
    rw [predict_trend, if_neg hx0, if_neg hg, if_neg hxy]
    simp only [specOlsSlope, specOlsIntercept, specPearsonSq, specSxx, specSxy, specSyy]
    have hnq : ((x.length : ℚ)) ≠ 0 := Nat.cast_ne_zero.mpr (by omega)
    have hA0 : (∑ i ∈ Finset.range x.length, (x.getD i 0 - meanL x) ^ 2) ≠ 0 := by
      intro h0
      exact hne (amax_eq_amin_of_all_eq
        (List.ne_nil_of_length_pos (by omega)) (all_eq_of_sum_sq_zero h0))
    have hApos : 0 < ∑ i ∈ Finset.range x.length, (x.getD i 0 - meanL x) ^ 2 :=
      lt_of_le_of_ne (Finset.sum_nonneg fun i _ => sq_nonneg _) (Ne.symm hA0)
    have hssxm : ¬((∑ i ∈ Finset.range x.length, (x.getD i 0 - meanL x) ^ 2) /
        (x.length : ℚ) = 0) := by
      rw [div_eq_zero_iff]
      push_neg
      exact ⟨hA0, hnq⟩
    rw [if_neg hssxm]
    simp only [Option.map_some']
    rw [div_div_same _ _ _ hnq]
    by_cases hC0 : (∑ i ∈ Finset.range x.length, (y.getD i 0 - meanL y) ^ 2) = 0
    · rw [if_pos (Or.inr (by rw [hC0]; simp)), if_pos hC0]
    · have hcond : ¬((∑ i ∈ Finset.range x.length, (x.getD i 0 - meanL x) ^ 2) /
          (x.length : ℚ) = 0 ∨
          (∑ i ∈ Finset.range x.length, (y.getD i 0 - meanL y) ^ 2) /
          (x.length : ℚ) = 0) := by
        push_neg
        refine ⟨hssxm, ?_⟩
        rw [Ne, div_eq_zero_iff]
        push_neg
        exact ⟨hC0, hnq⟩
      rw [if_neg hcond, if_neg hC0]
      have hCpos : 0 < ∑ i ∈ Finset.range x.length, (y.getD i 0 - meanL y) ^ 2 :=
        lt_of_le_of_ne (Finset.sum_nonneg fun i _ => sq_nonneg _) (Ne.symm hC0)
      have hmin : ((∑ i ∈ Finset.range x.length,
            (x.getD i 0 - meanL x) * (y.getD i 0 - meanL y)) / (x.length : ℚ)) ^ 2 /
            ((∑ i ∈ Finset.range x.length, (x.getD i 0 - meanL x) ^ 2) / (x.length : ℚ) *
             ((∑ i ∈ Finset.range x.length, (y.getD i 0 - meanL y) ^ 2) / (x.length : ℚ))) =
          (∑ i ∈ Finset.range x.length,
            (x.getD i 0 - meanL x) * (y.getD i 0 - meanL y)) ^ 2 /
            ((∑ i ∈ Finset.range x.length, (x.getD i 0 - meanL x) ^ 2) *
             (∑ i ∈ Finset.range x.length, (y.getD i 0 - meanL y) ^ 2)) := by
        rw [div_pow, div_mul_div_comm, ← pow_two]
        exact div_div_same _ _ _ (pow_ne_zero 2 hnq)
      rw [hmin, min_eq_left]
      rw [div_le_one (by positivity)]
      exact Finset.sum_mul_sq_le_sq_mul_sq (Finset.range x.length)
        (fun i => x.getD i 0 - meanL x) (fun i => y.getD i 0 - meanL y)

/-- Witness for the amended C7 on the exact line y = 2x + 1 through
x = [0, 1, 2]. -/
theorem predict_trend_characterisation_witness :
    (([0, 1, 2] : List ℚ).length = ([1, 3, 5] : List ℚ).length ∧
     2 ≤ ([0, 1, 2] : List ℚ).length ∧ amax [0, 1, 2] ≠ amin [0, 1, 2]) ∧
    ((predict_trend [0, 1, 2] [1, 3, 5]).isOk = true ↔
      ¬(([0, 1, 2] : List ℚ).length = 0 ∨
        (amax [0, 1, 2] = amin [0, 1, 2] ∧ 1 < ([0, 1, 2] : List ℚ).length))) ∧
    predict_trend [0, 1, 2] [1, 3, 5] =
      .ok (some (specOlsSlope [0, 1, 2] [1, 3, 5]),
        some (specOlsIntercept [0, 1, 2] [1, 3, 5]),
        if specSyy [0, 1, 2] [1, 3, 5] = 0 then 0
        else specPearsonSq [0, 1, 2] [1, 3, 5]) := by
  have hmax : amax [(0 : ℚ), 1, 2] ≠ amin [(0 : ℚ), 1, 2] := by
    simp [amax, amin]
  have h := predict_trend_characterisation [0, 1, 2] [1, 3, 5] (by norm_num)
  exact ⟨⟨by norm_num, by norm_num, hmax⟩, h.1, h.2 (by norm_num) hmax⟩

lemma replicate_mean (L : ℕ) (c : ℚ) (hL : L ≠ 0) :
    meanL (List.replicate L c) = c := by
  unfold meanL
  rw [List.length_replicate]
  rw [Finset.sum_congr rfl (fun i hi => getD_replicate (Finset.mem_range.mp hi))]
  rw [Finset.sum_const, Finset.card_range, nsmul_eq_mul, mul_comm, mul_div_assoc,
    div_self (Nat.cast_ne_zero.mpr hL), mul_one]

/-- C4: the trend fitter on x = 0..L-1 (nonzero variance) and a constant y
of length L ≥ 2 returns slope 0 and a defined r_squared equal to 0, with
intercept the constant itself. -/
theorem predict_trend_constant_input (L : ℕ) (c : ℚ) (hL : 2 ≤ L) :
    predict_trend ((List.range L).map (fun k : ℕ => (k : ℚ))) (List.replicate L c) =
      .ok (some 0, some c, 0) := by
  have hxlen : ((List.range L).map (fun k : ℕ => (k : ℚ))).length = L := by
    rw [List.length_map, List.length_range]
  have hylen : (List.replicate L c).length = L := List.length_replicate ..
  have h0mem : (0 : ℚ) ∈ (List.range L).map (fun k : ℕ => (k : ℚ)) :=
    List.mem_map.mpr ⟨0, List.mem_range.mpr (by omega), by norm_num⟩
  have h1mem : (1 : ℚ) ∈ (List.range L).map (fun k : ℕ => (k : ℚ)) :=
    List.mem_map.mpr ⟨1, List.mem_range.mpr (by omega), by norm_num⟩
  have hmaxmin : amax ((List.range L).map (fun k : ℕ => (k : ℚ))) ≠
      amin ((List.range L).map (fun k : ℕ => (k : ℚ))) := by
    intro he
    have g1 := le_amax h1mem
    have g2 := amin_le h0mem
    rw [he] at g1
    linarith
  have hymean : meanL (List.replicate L c) = c := replicate_mean L c (by omega)
  have hga : ¬(((List.range L).map (fun k : ℕ => (k : ℚ))).length = 0 ∨
      (List.replicate L c).length = 0) := by
    rw [hxlen, hylen]
    push_neg
    omega
  have hgc : ¬(((List.range L).map (fun k : ℕ => (k : ℚ))).length ≠
      (List.replicate L c).length) := by
    rw [hxlen, hylen]
    simp
  rw [predict_trend, if_neg hga, if_neg (fun hc => hmaxmin hc.1), if_neg hgc]
  rw [hxlen]
  have hCsum : ∑ i ∈ Finset.range L,
      ((List.replicate L c).getD i 0 - meanL (List.replicate L c)) ^ 2 = 0 :=
    Finset.sum_eq_zero (fun i hi => by
      rw [getD_replicate (Finset.mem_range.mp hi), hymean]; ring)
  have hBsum : ∑ i ∈ Finset.range L,
      (((List.range L).map (fun k : ℕ => (k : ℚ))).getD i 0 -
        meanL ((List.range L).map (fun k : ℕ => (k : ℚ)))) *
      ((List.replicate L c).getD i 0 - meanL (List.replicate L c)) = 0 :=
    Finset.sum_eq_zero (fun i hi => by
      rw [getD_replicate (Finset.mem_range.mp hi), hymean]; ring)
  have hA0 : (∑ i ∈ Finset.range L,
      (((List.range L).map (fun k : ℕ => (k : ℚ))).getD i 0 -
        meanL ((List.range L).map (fun k : ℕ => (k : ℚ)))) ^ 2) ≠ 0 := by
    intro h0
    have hall : ∀ a ∈ (List.range L).map (fun k : ℕ => (k : ℚ)),
        a = meanL ((List.range L).map (fun k : ℕ => (k : ℚ))) :=
      all_eq_of_sum_sq_zero (by rw [hxlen]; exact h0)
    have e0 := hall _ h0mem
    have e1 := hall _ h1mem
    rw [← e0] at e1
    norm_num at e1
  dsimp only
  rw [hBsum, hCsum]
  have hAdiv : ¬((∑ i ∈ Finset.range L,
      (((List.range L).map (fun k : ℕ => (k : ℚ))).getD i 0 -
        meanL ((List.range L).map (fun k : ℕ => (k : ℚ)))) ^ 2) / (L : ℚ) = 0) := by
    rw [div_eq_zero_iff]
    push_neg
    exact ⟨hA0, Nat.cast_ne_zero.mpr (by omega)⟩
  rw [if_neg hAdiv, if_pos (Or.inr (zero_div (L : ℚ)))]
  simp [hymean]

/-- Witness for C4 at the spec's example: constant y = [5, 5, 5, 5]. -/
theorem predict_trend_constant_input_witness :
    2 ≤ 4 ∧
    predict_trend ((List.range 4).map (fun k : ℕ => (k : ℚ))) (List.replicate 4 5) =
      .ok (some 0, some 5, 0) :=
  ⟨by norm_num, predict_trend_constant_input 4 5 (by norm_num)⟩

/-- C3: the trend classifier is a pure total function matching the
thresholds — stable when |slope| < 0.01, increasing when the slope is
positive at or above the threshold, decreasing otherwise, with confidence
reliable exactly when R² > 0.7 — and in particular slope 0.005 classifies
stable, 0.02 increasing and −0.5 decreasing. -/
theorem trend_classifier_thresholds (slope r2 : ℚ) :
    (|slope| < 1/100 → trendDirection slope = "stable") ∧
    (1/100 ≤ |slope| → 0 < slope → trendDirection slope = "increasing") ∧
    (1/100 ≤ |slope| → slope ≤ 0 → trendDirection slope = "decreasing") ∧
    (7/10 < r2 → confidence_note r2 = "Trend analysis is highly reliable") ∧
    (r2 ≤ 7/10 → confidence_note r2 = "Trend analysis should be interpreted cautiously") ∧
    trendDirection (5/1000) = "stable" ∧
    trendDirection (2/100) = "increasing" ∧
    trendDirection (-(1/2)) = "decreasing" := by
  have habs1 : |(5/1000 : ℚ)| = 5/1000 := abs_of_nonneg (by norm_num)
  have habs2 : |(2/100 : ℚ)| = 2/100 := abs_of_nonneg (by norm_num)
  have habs3 : |(-(1/2) : ℚ)| = 1/2 := by
    rw [abs_neg]
    exact abs_of_nonneg (by norm_num)
  refine ⟨?_, ?_, ?_, ?_, ?_, ?_, ?_, ?_⟩
  · intro h
    rw [trendDirection, if_pos h]
  · intro h1 h2
    rw [trendDirection, if_neg (not_lt.mpr h1), if_pos h2]
  · intro h1 h2
    rw [trendDirection, if_neg (not_lt.mpr h1), if_neg (not_lt.mpr h2)]
  · intro h
    rw [confidence_note, if_pos h]
  · intro h
    rw [confidence_note, if_neg (not_lt.mpr h)]
  · rw [trendDirection, if_pos (by rw [habs1]; norm_num)]
  · rw [trendDirection, if_neg (by rw [habs2]; norm_num), if_pos (by norm_num)]
  · rw [trendDirection, if_neg (by rw [habs3]; norm_num),
      if_neg (by norm_num)]

/-- Witness for C3: the classifier at slope 0.005 and R² 0.85. -/
theorem trend_classifier_thresholds_witness :
    ((7 : ℚ)/10 < 85/100 ∧
      confidence_note (85/100) = "Trend analysis is highly reliable") ∧
    trendDirection (5/1000) = "stable" :=
  ⟨⟨by norm_num,
    (trend_classifier_thresholds 0 (85/100)).2.2.2.1 (by norm_num)⟩,
   (trend_classifier_thresholds (5/1000) 0).2.2.2.2.2.1⟩

/-- C5: in every analysis run the humidity narrative is computed from
slope = 0 and R² = 0 regardless of the humidity data, so it is always the
stable humidity sentence with the cautious confidence phrase and the text
"R² = 0.00", while the other four metrics are narrated from their own
fitted slope and R². -/
theorem humidity_narrative_constant (temp soil light co2 : ℚ × ℚ) :
    (trend_narratives temp soil light co2).humidity =
      some "Humidity remains consistent. Trend analysis should be interpreted cautiously, statistical fit R² = 0.00." ∧
    (trend_narratives temp soil light co2).temperature =
      generate_trend_narrative "temperature" temp.1 temp.2 ∧
    (trend_narratives temp soil light co2).soil_moisture =
      generate_trend_narrative "soil_moisture" soil.1 soil.2 ∧
    (trend_narratives temp soil light co2).light_level =
      generate_trend_narrative "light_level" light.1 light.2 ∧
    (trend_narratives temp soil light co2).co2_level =
      generate_trend_narrative "co2_level" co2.1 co2.2 := by
  refine ⟨?_, rfl, rfl, rfl, rfl⟩
  have h : roundHalfEven 0 = 0 := by norm_num [roundHalfEven]
  have hc : ¬((7 : ℚ)/10 < 0) := by norm_num
  show generate_trend_narrative "humidity" 0 0 = _
  simp [generate_trend_narrative, trend_descriptions, trendDirection,
    confidence_note, format2, h, hc]
  decide

/-- C9: the narrative composer is total over the fixed 15-entry
(metric, direction) table and produces the sentence
`{direction sentence} {confidence phrase}, statistical fit R² = {r2:.2f}.`;
for temperature, an increasing slope and R² = 0.85, the sentence contains
"steadily rising", the "highly reliable" confidence phrase, and
"R² = 0.85". -/
theorem narrative_composer_sentences (slope r2 : ℚ) :
    (∀ p ∈ (["temperature", "humidity", "soil_moisture", "light_level",
        "co2_level"] : List String),
      (generate_trend_narrative p slope r2).isSome = true) ∧
    (∀ p ∈ (["temperature", "humidity", "soil_moisture", "light_level",
        "co2_level"] : List String),
      ∀ d ∈ (["increasing", "decreasing", "stable"] : List String),
        (trend_descriptions p d).isSome = true) ∧
    generate_trend_narrative "temperature" 2 (85/100) =
      some ("Temperature is " ++ "steadily rising" ++
        ", indicating heat accumulation. Trend analysis is highly reliable, statistical fit R² = 0.85.") ∧
    generate_trend_narrative "temperature" 2 (85/100) =
      some ("Temperature is steadily rising, indicating heat accumulation. " ++
        "Trend analysis is highly reliable" ++ ", statistical fit R² = 0.85.") ∧
    generate_trend_narrative "temperature" 2 (85/100) =
      some ("Temperature is steadily rising, indicating heat accumulation. Trend analysis is highly reliable, statistical fit " ++
        "R² = 0.85" ++ ".") := by
  have htab : ∀ p ∈ (["temperature", "humidity", "soil_moisture",
      "light_level", "co2_level"] : List String),
      ∀ d ∈ (["increasing", "decreasing", "stable"] : List String),
        (trend_descriptions p d).isSome = true := by decide
  have hdir : trendDirection slope = "stable" ∨
      trendDirection slope = "increasing" ∨
      trendDirection slope = "decreasing" := by
    unfold trendDirection
    split_ifs <;> simp
  have h85 : roundHalfEven (100 * (85/100)) = 85 := by norm_num [roundHalfEven]
  have habs : ¬(|(2 : ℚ)| < 1/100) := by
    rw [abs_of_nonneg (by norm_num : (0:ℚ) ≤ 2)]
    norm_num
  have hrel : (7 : ℚ)/10 < 85/100 := by norm_num
  have hdir2 : trendDirection 2 = "increasing" := by
    rw [trendDirection, if_neg habs, if_pos (by norm_num)]
  have hcn : confidence_note (85/100) = "Trend analysis is highly reliable" := by
    rw [confidence_note, if_pos hrel]
  have hfmt : format2 (85/100) = "0.85" := by
    simp [format2, h85]
    decide
  have key : generate_trend_narrative "temperature" 2 (85/100) =
      some "Temperature is steadily rising, indicating heat accumulation. Trend analysis is highly reliable, statistical fit R² = 0.85." := by
    simp [generate_trend_narrative, hdir2, hcn, hfmt, trend_descriptions]
  refine ⟨?_, htab, by rw [key]; decide, by rw [key]; decide, by rw [key]; decide⟩
  intro p hp
  have hiso : (generate_trend_narrative p slope r2).isSome =
      (trend_descriptions p (trendDirection slope)).isSome := by
    simp [generate_trend_narrative]
  rw [hiso]
  rcases hdir with h | h | h <;> rw [h] <;> exact htab p hp _ (by simp)

/-- Witness for C9: the composer is defined at the temperature metric. -/
theorem narrative_composer_sentences_witness :
    (generate_trend_narrative "temperature" 0 0).isSome = true :=
  (narrative_composer_sentences 0 0).1 "temperature" (by simp)

end CPC
